/-
Verification of the Mixture-of-Experts routing core of the ml-replications
repository: auxiliary loss suite (src/moet_experiment/hf_model.py), the
routing cache (src/mixture_of_experts/cache.py), expert weight merging
(src/mixture_of_experts/experts.py) and the MoE layer contracts exercised by
src/moet_experiment/tests/test_group_moe_layer.py.

Tensors are embedded as functions on `Fin` index types (one axis per tensor
dimension) with real-valued entries; `torch.softmax`, `torch.logsumexp`,
`torch.mean` and the einops reductions are spelled out explicitly on those
functions.  The stacked routing-logit tensor is laid out
[layer, num_experts, batch_seq], the layout the loss code in
src/moet_experiment/hf_model.py documents for it and computes with
(its `einops.reduce`/`einsum` patterns and dim arguments are only
consistent with that layout).
-/
import Mathlib

open BigOperators Finset

namespace MLRep

/-! ### Softmax and logsumexp primitives (torch.nn.functional.softmax /
torch.logsumexp along a single axis) -/

/-- `F.softmax` along an axis of size `n`: entry `i` of the softmax of `v`. -/
noncomputable def softmax {n : ℕ} (v : Fin n → ℝ) (i : Fin n) : ℝ :=
  Real.exp (v i) / ∑ j, Real.exp (v j)

/-- `t.logsumexp` along an axis of size `n`. -/
noncomputable def logsumexp {n : ℕ} (v : Fin n → ℝ) : ℝ :=
  Real.log (∑ j, Real.exp (v j))

lemma sum_exp_pos {n : ℕ} (v : Fin n → ℝ) (i : Fin n) :
    0 < ∑ j, Real.exp (v j) :=
  Finset.sum_pos (fun j _ => Real.exp_pos (v j)) ⟨i, Finset.mem_univ i⟩

lemma softmax_pos {n : ℕ} (v : Fin n → ℝ) (i : Fin n) : 0 < softmax v i :=
  div_pos (Real.exp_pos (v i)) (sum_exp_pos v i)

lemma softmax_le_one {n : ℕ} (v : Fin n → ℝ) (i : Fin n) : softmax v i ≤ 1 := by
  unfold softmax
  rw [div_le_one (sum_exp_pos v i)]
  exact Finset.single_le_sum (fun j _ => (Real.exp_pos (v j)).le) (Finset.mem_univ i)

/-- Each row of a softmax sums to 1 (used for the expert-importance analysis). -/
lemma sum_softmax_eq_one {n : ℕ} (hn : 0 < n) (v : Fin n → ℝ) :
    ∑ i, softmax v i = 1 := by
  unfold softmax
  rw [← Finset.sum_div]
  exact div_self (ne_of_gt (sum_exp_pos v ⟨0, hn⟩))

/-! ### The routing full cache

Modelled from the spec: `TokenChoiceFullCache`, the FullCache consumed by the
auxiliary losses of src/moet_experiment/hf_model.py, is not under src/ (only
the older `MoEFullCache` of src/mixture_of_experts/cache.py is).  Per the
spec's data model (§3: a FullCache aggregates per-layer records of raw
routing logits and token-to-expert assignments) and the shapes the loss code
documents, it exposes:
  * `routing_weights_tensor` — raw routing logits stacked across layers,
    laid out [layer, num_experts, batch_seq];
  * `P` — the token→expert assignment indicator entering the "fraction of
    tokens assigned to e" factor, laid out [layer, expert, batch_seq, k] per
    the einops pattern in `load_balancing_aux_loss_function`;
  * `num_experts = E` and `num_tokens = T` (batch·seq). -/
structure TokenChoiceFullCache (L E T k : ℕ) where
  routing_weights_tensor : Fin L → Fin E → Fin T → ℝ
  P : Fin L → Fin E → Fin T → Fin k → ℝ

/-! ### Auxiliary loss suite (src/moet_experiment/hf_model.py) -/

/-- `load_balancing_aux_loss_function` (src/moet_experiment/hf_model.py
lines 15–44): fraction of tokens per expert from `P`, `F.softmax` of the
stacked logits along `dim=-1` (the batch_seq axis of the
[layer, num_experts, batch_seq] tensor), per-expert totals divided by
`num_tokens`, then `num_experts * Σ_{layer,expert}` of the product. -/
noncomputable def load_balancing_aux_loss_function {L E T k : ℕ}
    (c : TokenChoiceFullCache L E T k) : ℝ :=
  let frac_tokens_per_expert : Fin L → Fin E → ℝ :=
    fun l e => (∑ t, ∑ j, c.P l e t j) / (T : ℝ)
  let routing_probs : Fin L → Fin E → Fin T → ℝ :=
    fun l e => softmax (c.routing_weights_tensor l e)
  let frac_router_prob_per_expert : Fin L → Fin E → ℝ :=
    fun l e => (∑ t, routing_probs l e t) / (T : ℝ)
  (E : ℝ) * ∑ l, ∑ e, frac_tokens_per_expert l e * frac_router_prob_per_expert l e

/-- The load-balancing loss as claim C1 states it: identical to the code
except that the router probability mass comes from the per-token softmax of
the logits over the *expert* axis. -/
noncomputable def load_balancing_aux_loss_claimed {L E T k : ℕ}
    (c : TokenChoiceFullCache L E T k) : ℝ :=
  let frac_tokens_per_expert : Fin L → Fin E → ℝ :=
    fun l e => (∑ t, ∑ j, c.P l e t j) / (T : ℝ)
  let routing_probs : Fin L → Fin E → Fin T → ℝ :=
    fun l e t => softmax (fun e2 => c.routing_weights_tensor l e2 t) e
  let frac_router_prob_per_expert : Fin L → Fin E → ℝ :=
    fun l e => (∑ t, routing_probs l e t) / (T : ℝ)
  (E : ℝ) * ∑ l, ∑ e, frac_tokens_per_expert l e * frac_router_prob_per_expert l e

/-- `router_z_loss_function` (src/moet_experiment/hf_model.py lines 46–70):
`t.logsumexp(router_logits, dim=-1)` squares each (layer, expert) entry, the
einsum sums them all, and the result is divided by `num_tokens`. -/
noncomputable def router_z_loss_function {L E T k : ℕ}
    (c : TokenChoiceFullCache L E T k) : ℝ :=
  let lse_logits : Fin L → Fin E → ℝ :=
    fun l e => logsumexp (c.routing_weights_tensor l e)
  let squared_lse_logits : Fin L → Fin E → ℝ := fun l e => lse_logits l e ^ 2
  (∑ l, ∑ e, squared_lse_logits l e) / (T : ℝ)

/-- The router-z loss as claim C2 states it: the *mean over layers and
experts* of the squared logsumexp values (division by `L·E` instead of the
code's division by `num_tokens`). -/
noncomputable def router_z_loss_claimed {L E T k : ℕ}
    (c : TokenChoiceFullCache L E T k) : ℝ :=
  (∑ l, ∑ e, logsumexp (c.routing_weights_tensor l e) ^ 2) / ((L : ℝ) * (E : ℝ))

/-- Per-(layer, expert) aggregate routing probability of
`expert_importance_loss` (src/moet_experiment/hf_model.py lines 72–99):
`F.softmax(routing_weights, dim=2)` normalises over the batch_seq axis of
the [layer, num_experts, batch_seq] tensor, then the einops reduce sums over
batch_seq. -/
noncomputable def expert_importance {L E T k : ℕ}
    (c : TokenChoiceFullCache L E T k) (l : Fin L) (e : Fin E) : ℝ :=
  ∑ t, softmax (c.routing_weights_tensor l e) t

/-- `t.mean(flat_expert_importance)`: mean of the flattened (layer·expert)
importance vector — the denominator of `expert_importance_loss`. -/
noncomputable def mean_expert_importance {L E T k : ℕ}
    (c : TokenChoiceFullCache L E T k) : ℝ :=
  (∑ l, ∑ e, expert_importance c l e) / ((L : ℝ) * (E : ℝ))

/-- `t.std(flat_expert_importance)`: Bessel-corrected sample standard
deviation of the flattened importance vector. -/
noncomputable def std_expert_importance {L E T k : ℕ}
    (c : TokenChoiceFullCache L E T k) : ℝ :=
  Real.sqrt ((∑ l, ∑ e, (expert_importance c l e - mean_expert_importance c) ^ 2)
    / ((L : ℝ) * (E : ℝ) - 1))

/-- `expert_importance_loss`: `(std / mean) ** 2`, with no guard on the
`mean` denominator. -/
noncomputable def expert_importance_loss {L E T k : ℕ}
    (c : TokenChoiceFullCache L E T k) : ℝ :=
  (std_expert_importance c / mean_expert_importance c) ^ 2

/-- `local_entropy_loss` (src/moet_experiment/hf_model.py lines 101–127):
`F.softmax(routing_weights, dim=2)` (batch_seq axis), flatten (layer, expert)
together, `-t.sum(p * log p, dim=0)` per token, then `t.mean` over tokens. -/
noncomputable def local_entropy_loss {L E T k : ℕ}
    (c : TokenChoiceFullCache L E T k) : ℝ :=
  (∑ t, -∑ l, ∑ e,
      softmax (c.routing_weights_tensor l e) t
        * Real.log (softmax (c.routing_weights_tensor l e) t)) / (T : ℝ)

/-- Per-token softmax of the stacked routing logits over the joint
(layer, expert) axis — the distribution claim C5 speaks about. -/
noncomputable def pair_softmax {L E T : ℕ} (R : Fin L → Fin E → Fin T → ℝ)
    (l : Fin L) (e : Fin E) (t : Fin T) : ℝ :=
  Real.exp (R l e t) / ∑ l2, ∑ e2, Real.exp (R l2 e2 t)

/-- The local-entropy loss as claim C5 states it: the negative of the mean
over tokens of the entropy of each token's softmax distribution over the
(layer, expert) pairs (normalised jointly over layers and experts). -/
noncomputable def local_entropy_loss_claimed {L E T k : ℕ}
    (c : TokenChoiceFullCache L E T k) : ℝ :=
  -((∑ t, -∑ l, ∑ e,
      pair_softmax c.routing_weights_tensor l e t
        * Real.log (pair_softmax c.routing_weights_tensor l e t)) / (T : ℝ))

/-- `global_entropy_loss` (src/moet_experiment/hf_model.py lines 130–159):
softmax over the batch_seq axis, `t.mean` over tokens per flattened
(layer, expert) entry, then `-t.sum(g * log g)`. -/
noncomputable def global_entropy_loss {L E T k : ℕ}
    (c : TokenChoiceFullCache L E T k) : ℝ :=
  -∑ l, ∑ e,
    ((∑ t, softmax (c.routing_weights_tensor l e) t) / (T : ℝ))
      * Real.log ((∑ t, softmax (c.routing_weights_tensor l e) t) / (T : ℝ))

/-! ### Non-negativity of the entropy losses (claim C6) -/

lemma mul_log_self_nonpos {x : ℝ} (h0 : 0 ≤ x) (h1 : x ≤ 1) :
    x * Real.log x ≤ 0 :=
  mul_nonpos_iff.mpr (Or.inl ⟨h0, Real.log_nonpos h0 h1⟩)

lemma softmax_mean_nonneg {n : ℕ} (v : Fin n → ℝ) (T : ℕ) :
    0 ≤ (∑ t, softmax v t) / (T : ℝ) :=
  div_nonneg (Finset.sum_nonneg fun t _ => (softmax_pos v t).le) (Nat.cast_nonneg T)

lemma softmax_mean_le_one {n : ℕ} (v : Fin n → ℝ) :
    (∑ t, softmax v t) / (n : ℝ) ≤ 1 := by
  rcases Nat.eq_zero_or_pos n with hn | hn
  · subst hn
    simp
  · rw [div_le_one (by exact_mod_cast hn)]
    calc ∑ t, softmax v t ≤ ∑ _t : Fin n, (1 : ℝ) :=
          Finset.sum_le_sum fun t _ => softmax_le_one v t
      _ = n := by simp

/-- C6: for every FullCache, the global entropy loss and the local entropy
loss are both non-negative (every softmax entry lies in (0, 1], so each
`-p · log p` term and each `-g · log g` term is non-negative). -/
theorem entropy_losses_nonneg {L E T k : ℕ} (c : TokenChoiceFullCache L E T k) :
    0 ≤ global_entropy_loss c ∧ 0 ≤ local_entropy_loss c := by
  constructor
  · unfold global_entropy_loss
    rw [neg_nonneg]
    refine Finset.sum_nonpos fun l _ => Finset.sum_nonpos fun e _ => ?_
    exact mul_log_self_nonpos
      (softmax_mean_nonneg (c.routing_weights_tensor l e) T)
      (softmax_mean_le_one (c.routing_weights_tensor l e))
  · unfold local_entropy_loss
    refine div_nonneg (Finset.sum_nonneg fun t _ => ?_) (Nat.cast_nonneg T)
    rw [neg_nonneg]
    refine Finset.sum_nonpos fun l _ => Finset.sum_nonpos fun e _ => ?_
    exact mul_log_self_nonpos
      (softmax_pos (c.routing_weights_tensor l e) t).le
      (softmax_le_one (c.routing_weights_tensor l e) t)

/-! ### Claim C1: the load-balancing loss softmaxes the wrong axis -/

/-- A FullCache with 1 layer, 2 experts, 1 token, k = 1: all routing logits
are 0 and the single token is assigned to expert 0. -/
def exCacheC1 : TokenChoiceFullCache 1 2 1 1 :=
  ⟨fun _ _ _ => 0, fun _ e _ _ => if e = 0 then 1 else 0⟩

/-- C1: on the cache `exCacheC1` the code returns 2 — `F.softmax(dim=-1)`
normalises the [layer, num_experts, batch_seq] logits over the *token* axis,
so every expert's total router probability is exactly 1 — while the claimed
formula (router probability mass from the per-token softmax over the
*expert* axis) gives 1.  The code's value is constant in the logits; the
claim does not hold of the code. -/
theorem load_balancing_softmax_axis_divergence :
    load_balancing_aux_loss_function exCacheC1 = 2 ∧
      load_balancing_aux_loss_claimed exCacheC1 = 1 ∧ (2 : ℝ) ≠ 1 := by
  refine ⟨?_, ?_, by norm_num⟩
  · simp [load_balancing_aux_loss_function, exCacheC1, softmax,
      Fin.sum_univ_two, Fin.sum_univ_one, Real.exp_zero]
  · simp [load_balancing_aux_loss_claimed, exCacheC1, softmax,
      Fin.sum_univ_two, Fin.sum_univ_one, Real.exp_zero]

/-! ### Claim C2: the router-z loss divides by num_tokens, not layers·experts -/

/-- A FullCache with 1 layer, 1 expert and 2 tokens, all logits 0. -/
def exCacheC2 : TokenChoiceFullCache 1 1 2 1 :=
  ⟨fun _ _ _ => 0, fun _ _ _ _ => 1⟩

/-- C2 (counterexample): with 1 layer, 1 expert and 2 tokens of zero logits
the code divides the squared logsumexp by `num_tokens = 2`, returning
`log(2)²/2`, while the claimed mean over layers and experts is `log(2)²`;
the two differ. -/
theorem router_z_denominator_counterexample :
    router_z_loss_function exCacheC2 = Real.log 2 ^ 2 / 2 ∧
      router_z_loss_claimed exCacheC2 = Real.log 2 ^ 2 ∧
      Real.log 2 ^ 2 / 2 ≠ Real.log 2 ^ 2 := by
  refine ⟨?_, ?_, ?_⟩
  · simp [router_z_loss_function, exCacheC2, logsumexp,
      Fin.sum_univ_two, Fin.sum_univ_one, Real.exp_zero]
  · simp [router_z_loss_claimed, exCacheC2, logsumexp,
      Fin.sum_univ_two, Fin.sum_univ_one, Real.exp_zero]
  · have hl : 0 < Real.log 2 := Real.log_pos (by norm_num)
    have hsq : 0 < Real.log 2 ^ 2 := pow_pos hl 2
    intro h
    linarith

/-- C2 (amended): `router_z_loss_function` returns the *sum* over layers and
experts of `logsumexp(routing_logits)²` (logsumexp over each
(layer, expert) row, i.e. over the token axis) divided by `num_tokens`. -/
theorem router_z_loss_eq_sum_sq_logsumexp_div_num_tokens
    {L E T k : ℕ} (c : TokenChoiceFullCache L E T k) :
    router_z_loss_function c =
      (∑ l, ∑ e,
        Real.log (∑ t, Real.exp (c.routing_weights_tensor l e t)) ^ 2) / (T : ℝ) := by
  simp [router_z_loss_function, logsumexp]

/-! ### Claim C5: the local entropy loss softmaxes the wrong axis -/

/-- A FullCache with 1 layer, 2 experts and a single token, all logits 0. -/
def exCacheC5 : TokenChoiceFullCache 1 2 1 1 :=
  ⟨fun _ _ _ => 0, fun _ _ _ _ => 1⟩

/-- C5 (counterexample): on `exCacheC5` the code returns 0 (softmax over the
single-token axis makes every probability 1), while the claimed value — the
negative of the mean entropy of the per-token distribution over the two
(layer, expert) pairs — is `-log 2 ≠ 0`. -/
theorem local_entropy_axis_counterexample :
    local_entropy_loss exCacheC5 = 0 ∧
      local_entropy_loss_claimed exCacheC5 = -Real.log 2 ∧
      (-Real.log 2 : ℝ) ≠ 0 := by
  refine ⟨?_, ?_, ?_⟩
  · simp [local_entropy_loss, exCacheC5, softmax,
      Fin.sum_univ_two, Fin.sum_univ_one, Real.exp_zero]
  · simp [local_entropy_loss_claimed, exCacheC5, pair_softmax,
      Fin.sum_univ_two, Fin.sum_univ_one, Real.exp_zero]
  · exact neg_ne_zero.mpr (Real.log_pos (by norm_num)).ne'

/-- C5 (amended): `local_entropy_loss` equals the negative of (the sum over
(layer, expert) pairs and tokens of `p · log p`, divided by `num_tokens`),
where `p` is the softmax of the raw logits over the *token* axis separately
for each (layer, expert) pair — not each token's distribution over the
(layer, expert) pairs, and the returned value is `+` the mean of the
per-token `-Σ p·log p` totals. -/
theorem local_entropy_loss_eq_neg_sum_div
    {L E T k : ℕ} (c : TokenChoiceFullCache L E T k) :
    local_entropy_loss c =
      -((∑ l, ∑ e, ∑ t,
          softmax (c.routing_weights_tensor l e) t
            * Real.log (softmax (c.routing_weights_tensor l e) t)) / (T : ℝ)) := by
  unfold local_entropy_loss
  rw [← neg_div]
  congr 1
  have h : ∑ t, ∑ l, ∑ e,
      softmax (c.routing_weights_tensor l e) t
        * Real.log (softmax (c.routing_weights_tensor l e) t) =
      ∑ l, ∑ e, ∑ t,
      softmax (c.routing_weights_tensor l e) t
        * Real.log (softmax (c.routing_weights_tensor l e) t) := by
    rw [Finset.sum_comm]
    exact Finset.sum_congr rfl (fun l _ => Finset.sum_comm)
  rw [Finset.sum_neg_distrib, h]

/-! ### Claim C7: the importance-loss denominator cannot vanish -/

/-- A routing-collapse FullCache: 1 layer, 2 experts, 2 tokens, with every
token's logit 100 for expert 0 and -100 for expert 1 (all probability mass
concentrated on expert 0 under per-token normalisation). -/
def exCacheC7 : TokenChoiceFullCache 1 2 2 1 :=
  ⟨fun _ e _ => if e = 0 then 100 else -100, fun _ _ _ _ => 1⟩

/-- C7 (counterexample): at the routing-collapse cache `exCacheC7` the
denominator of the `(std/mean)²` division — the mean expert importance — is
exactly 1, not 0: each (layer, expert) softmax row over the token axis sums
to 1, so no concentration of probability mass can zero the denominator. -/
theorem mean_importance_at_routing_collapse :
    mean_expert_importance exCacheC7 = 1 ∧ (1 : ℝ) ≠ 0 := by
  constructor
  · unfold mean_expert_importance expert_importance
    rw [Finset.sum_congr rfl
      (fun l _ => Finset.sum_congr rfl
        (fun e _ => sum_softmax_eq_one (by norm_num) _))]
    norm_num
  · exact one_ne_zero

/-- C7 (amended): for every FullCache with at least one layer, one expert
and one token, the mean expert importance equals 1, so the unguarded
division in `expert_importance_loss` can never divide by zero in exact
arithmetic. -/
theorem mean_expert_importance_eq_one
    {L E T k : ℕ} (c : TokenChoiceFullCache L E T k)
    (hL : 0 < L) (hE : 0 < E) (hT : 0 < T) :
    mean_expert_importance c = 1 := by
  unfold mean_expert_importance expert_importance
  rw [Finset.sum_congr rfl
    (fun l _ => Finset.sum_congr rfl
      (fun e _ => sum_softmax_eq_one hT _))]
  simp only [Finset.sum_const, Finset.card_univ, Fintype.card_fin,
    nsmul_eq_mul, mul_one]
  rw [div_self]
  exact mul_ne_zero (Nat.cast_ne_zero.mpr hL.ne') (Nat.cast_ne_zero.mpr hE.ne')

/-- A minimal non-empty FullCache used to witness the hypotheses of
`mean_expert_importance_eq_one`. -/
def exCacheC7w : TokenChoiceFullCache 1 1 1 1 :=
  ⟨fun _ _ _ => 0, fun _ _ _ _ => 1⟩

/-- Witness for C7's amended theorem at a concrete non-empty cache. -/
theorem mean_expert_importance_eq_one_witness :
    0 < 1 ∧ mean_expert_importance exCacheC7w = 1 :=
  ⟨Nat.one_pos,
    mean_expert_importance_eq_one exCacheC7w Nat.one_pos Nat.one_pos Nat.one_pos⟩

/-! ### Expert weight merging (src/mixture_of_experts/experts.py)

`nn.Linear(dim, up_dim).weight` is stored [up_dim, dim] and
`nn.Linear(up_dim, dim).weight` is stored [dim, up_dim]; an `Expert` keeps
references to those tensors, so `ExpertList.up_expert_weights` stacks to
[num_experts, up_dim, dim] and `down_expert_weights` to
[num_experts, dim, up_dim].  Entries are embedded as rationals (the merge is
pure linear algebra). -/

/-- The four linear parameters of one expert, in the layout `Expert` stores
them (`up_expert_weight : [up_dim, dim]`, `down_expert_weight :
[dim, up_dim]`). -/
structure ExpertLinearParams (d u : ℕ) where
  up_expert_weight : Fin u → Fin d → ℚ
  up_expert_bias : Fin u → ℚ
  down_expert_weight : Fin d → Fin u → ℚ
  down_expert_bias : Fin d → ℚ

/-- The parameters returned by `ExpertList.merge_weights_and_biases`: the
einsum output patterns `-> dim up_dim` and `-> up_dim dim` put the merged
weight matrices in the *opposite* layout from the per-expert ones
(`ExpertFromWeights.forward` transposes them back with `.T` before calling
`F.linear`). -/
structure MergedLinearParams (d u : ℕ) where
  up_expert_weight : Fin d → Fin u → ℚ
  up_expert_bias : Fin u → ℚ
  down_expert_weight : Fin u → Fin d → ℚ
  down_expert_bias : Fin d → ℚ

/-- `ExpertList.merge_weights_and_biases` (src/mixture_of_experts/experts.py
lines 153–173): the four einsums
`"num_experts up_dim dim, num_experts -> dim up_dim"`,
`"num_experts up_dim, num_experts -> up_dim"`,
`"num_experts dim up_dim, num_experts -> up_dim dim"` and
`"num_experts dim, num_experts -> dim"` applied to the stacked expert
parameters and the merging-weight vector. -/
def merge_weights_and_biases {N d u : ℕ}
    (experts : Fin N → ExpertLinearParams d u)
    (merging_weights : Fin N → ℚ) : MergedLinearParams d u where
  up_expert_weight := fun i j =>
    ∑ e, (experts e).up_expert_weight j i * merging_weights e
  up_expert_bias := fun j =>
    ∑ e, (experts e).up_expert_bias j * merging_weights e
  down_expert_weight := fun j i =>
    ∑ e, (experts e).down_expert_weight i j * merging_weights e
  down_expert_bias := fun i =>
    ∑ e, (experts e).down_expert_bias i * merging_weights e

/-- A one-hot merging-weight vector (weight 1 on expert `i0`, 0 elsewhere). -/
def oneHot {N : ℕ} (i0 : Fin N) : Fin N → ℚ :=
  fun e => if e = i0 then 1 else 0

/-- A single expert (2×2 square matrices so that the transposed and plain
layouts are the same type) whose up-projection weight is the asymmetric
matrix with a single 1 in entry (0, 1). -/
def exMergeExperts : Fin 1 → ExpertLinearParams 2 2 := fun _ =>
  { up_expert_weight := fun i j => if i = 0 ∧ j = 1 then 1 else 0
    up_expert_bias := fun _ => 0
    down_expert_weight := fun _ _ => 0
    down_expert_bias := fun _ => 0 }

/-- C3 (counterexample): merging a single expert with the one-hot weight
vector on that expert does *not* reproduce the expert's up-projection weight
(and the weighted sum Σ_e w_e · W_e at that entry is 1 while the merged
entry is 0): the einsum transposes the weight matrices. -/
theorem merge_one_hot_transposes_counterexample :
    (merge_weights_and_biases exMergeExperts (oneHot 0)).up_expert_weight 0 1 = 0 ∧
      (∑ e, oneHot (0 : Fin 1) e * (exMergeExperts e).up_expert_weight 0 1) = 1 ∧
      (exMergeExperts 0).up_expert_weight 0 1 = 1 ∧
      (0 : ℚ) ≠ 1 := by
  refine ⟨?_, ?_, ?_, by norm_num⟩ <;>
    simp [merge_weights_and_biases, exMergeExperts, oneHot]

/-- C3 (amended): each merged tensor is the weighted sum over experts of the
corresponding per-expert tensor, with the up- and down-projection weight
matrices additionally *transposed* (entry (i, j) of the merged matrix is
Σ_e w_e · W_e[j, i]); the biases are plain weighted sums.  Consequently
merging with a one-hot vector on expert `i0` reproduces expert `i0`'s biases
exactly and its weight matrices transposed. -/
theorem merge_weights_and_biases_weighted_sums {N d u : ℕ}
    (experts : Fin N → ExpertLinearParams d u) (w : Fin N → ℚ) (i0 : Fin N) :
    (∀ i j, (merge_weights_and_biases experts w).up_expert_weight i j =
        ∑ e, w e * (experts e).up_expert_weight j i) ∧
      (∀ j, (merge_weights_and_biases experts w).up_expert_bias j =
        ∑ e, w e * (experts e).up_expert_bias j) ∧
      (∀ j i, (merge_weights_and_biases experts w).down_expert_weight j i =
        ∑ e, w e * (experts e).down_expert_weight i j) ∧
      (∀ i, (merge_weights_and_biases experts w).down_expert_bias i =
        ∑ e, w e * (experts e).down_expert_bias i) ∧
      (∀ i j, (merge_weights_and_biases experts (oneHot i0)).up_expert_weight i j =
        (experts i0).up_expert_weight j i) ∧
      (∀ j, (merge_weights_and_biases experts (oneHot i0)).up_expert_bias j =
        (experts i0).up_expert_bias j) ∧
      (∀ j i, (merge_weights_and_biases experts (oneHot i0)).down_expert_weight j i =
        (experts i0).down_expert_weight i j) ∧
      (∀ i, (merge_weights_and_biases experts (oneHot i0)).down_expert_bias i =
        (experts i0).down_expert_bias i) := by
  refine ⟨fun i j => ?_, fun j => ?_, fun j i => ?_, fun i => ?_,
    fun i j => ?_, fun j => ?_, fun j i => ?_, fun i => ?_⟩ <;>
    simp [merge_weights_and_biases, oneHot, mul_comm, Finset.sum_ite_eq]

/-! ### The grouped MoE layer (claims C4, C8, C9)

Modelled from the spec: `GroupMoELayer` (src/moet_experiment/group_moe_layer.py)
and `MoETConfig` are not under src/ — only their tests are
(src/moet_experiment/tests/test_group_moe_layer.py).  The model follows the
spec's §4.1–§4.5 and §6–§7: a router (`router_str` in the known set
{"hash", "linear"}), exactly one of top-`k` or capacity-factor `c` nonzero
(validated at construction), hash routing as `token_id mod num_experts` with
weight 1, token-choice top-`k` with softmax over the selected logits (ties
broken by first index), expert-choice with per-expert capacity
`⌊c·tokens/num_experts⌋`, an expert bank of up-projection → nonlinearity →
down-projection FFNs, and a combiner that recombines per-token weighted
expert outputs in the original token order.  Input tensors are
[batch, seq, hidden] as nested lists; a forward call with a hash router and
absent input ids fails first, before any routing computation. -/

def hashStr : String := "hash"

def linearStr : String := "linear"

def invalidRouterMsg : String := "router_str must be one of hash, linear"

def kcBothZeroMsg : String := "exactly one of k and c must be nonzero"

def zeroExpertsMsg : String := "num_experts must be positive"

def zeroGroupMsg : String := "group_size must be at least 1"

def missingIdsMsg : String := "input ids must be provided when using the hash router"

/-- Modelled from the spec: the configuration options of §6 recognised by
`GroupMoELayer` (`num_experts`, `router_str`, top-`k`, capacity factor `c`,
`group_size`). -/
structure MoEConfig where
  num_experts : ℕ
  router_str : String
  k : ℕ
  c : ℚ
  group_size : ℕ

/-- Modelled from the spec: one expert of the bank — up-projection weight
[up_dim, hidden] and bias, down-projection weight [hidden, up_dim] and bias,
as nested lists. -/
structure ExpertWeights where
  up : List (List ℝ)
  up_bias : List ℝ
  down : List (List ℝ)
  down_bias : List ℝ

/-- Modelled from the spec: a constructed `GroupMoELayer` — its validated
configuration, its expert bank and its linear-router weight
[num_experts, hidden]. -/
structure GroupMoELayer where
  cfg : MoEConfig
  experts : List ExpertWeights
  router_weight : List (List ℝ)

/-- Modelled from the spec: `GroupMoELayer.__init__` fails fast at
construction (§4.2/§7) on an unknown `router_str`, on `k` and `c` not having
exactly one nonzero value, and on degenerate `num_experts`/`group_size`. -/
def mkGroupMoELayer (cfg : MoEConfig) (experts : List ExpertWeights)
    (router_weight : List (List ℝ)) : Except String GroupMoELayer :=
  if cfg.router_str ≠ hashStr ∧ cfg.router_str ≠ linearStr then
    Except.error invalidRouterMsg
  else if (cfg.k = 0 ∧ cfg.c = 0) ∨ (cfg.k ≠ 0 ∧ cfg.c ≠ 0) then
    Except.error kcBothZeroMsg
  else if cfg.num_experts = 0 then
    Except.error zeroExpertsMsg
  else if cfg.group_size = 0 then
    Except.error zeroGroupMsg
  else
    Except.ok ⟨cfg, experts, router_weight⟩

def dotVec (a b : List ℝ) : ℝ :=
  (List.zipWith (fun p q => p * q) a b).sum

def matVec (M : List (List ℝ)) (v : List ℝ) : List ℝ :=
  M.map (fun row => dotVec row v)

def addVec (a b : List ℝ) : List ℝ :=
  List.zipWith (fun p q => p + q) a b

def scaleVec (r : ℝ) (v : List ℝ) : List ℝ :=
  v.map (fun p => r * p)

noncomputable def reluVec (v : List ℝ) : List ℝ :=
  v.map (fun p => max p 0)

/-- One expert FFN: up-projection, bias, nonlinearity, down-projection,
bias (spec §4.4). -/
noncomputable def applyExpert (w : ExpertWeights) (v : List ℝ) : List ℝ :=
  addVec (matVec w.down (reluVec (addVec (matVec w.up v) w.up_bias))) w.down_bias

open Classical in
/-- Modelled from the spec: token-choice assignment weights (§4.2) — expert
`e` is selected when fewer than `k` experts strictly beat its logit (ties
broken by first index); the weight is the softmax over the selected
logits only, and 0 for unselected experts. -/
noncomputable def tokenChoiceWeights (E k : ℕ) (logits : ℕ → ℝ) (e : ℕ) : ℝ :=
  if ((Finset.range E).filter (fun e3 =>
        logits e3 > logits e ∨ (logits e3 = logits e ∧ e3 < e))).card < k then
    Real.exp (logits e) /
      ∑ e2 ∈ (Finset.range E).filter (fun e2 =>
          ((Finset.range E).filter (fun e3 =>
            logits e3 > logits e2 ∨ (logits e3 = logits e2 ∧ e3 < e2))).card < k),
        Real.exp (logits e2)
  else 0

open Classical in
/-- Modelled from the spec: expert-choice assignment weights (§4.2/§4.3) —
expert `e` keeps token `i` when fewer than `cap` tokens strictly beat its
column logit (ties broken by first index); kept tokens contribute with the
token's softmax weight over the expert axis, dropped tokens with 0. -/
noncomputable def expertChoiceWeights (E cap T : ℕ) (logit : ℕ → ℕ → ℝ)
    (i e : ℕ) : ℝ :=
  if ((Finset.range T).filter (fun i3 =>
        logit i3 e > logit i e ∨ (logit i3 e = logit i e ∧ i3 < i))).card < cap then
    Real.exp (logit i e) / ∑ e2 ∈ Finset.range E, Real.exp (logit i e2)
  else 0

/-- Per-expert capacity `⌊c · tokens / num_experts⌋` (spec §3/§4.3). -/
def capacityOf (c : ℚ) (T E : ℕ) : ℕ :=
  Nat.floor (c * (T : ℚ) / (E : ℚ))

def mapWithIndex {α β : Type} (f : ℕ → α → β) : ℕ → List α → List β
  | _, [] => []
  | i, a :: as => f i a :: mapWithIndex f (i + 1) as

/-- The combiner (spec §4.5): a token's output is the weighted sum over the
expert bank of that token's per-expert assignment weight times the expert's
FFN output, accumulated in the token's original position. -/
noncomputable def combineTok (E : ℕ) (experts : List ExpertWeights)
    (w : ℕ → ℝ) (v : List ℝ) : List ℝ :=
  (List.range E).foldl
    (fun acc e =>
      addVec acc (scaleVec (w e) (applyExpert (experts.getD e ⟨[], [], [], []⟩) v)))
    (List.replicate v.length 0)

/-- Modelled from the spec: `GroupMoELayer.forward`.  The hash-router
assertion on missing input ids fires first, before any routing computation
(§4.1/§7); otherwise every token of the [batch, seq, hidden] input is routed
(hash: `token_id mod num_experts` with weight 1; linear with `k ≠ 0`:
token-choice top-`k`; linear with `c ≠ 0`: expert-choice under capacity) and
recombined in place. -/
noncomputable def forward (layer : GroupMoELayer) (x : List (List (List ℝ)))
    (ids : Option (List (List ℕ))) : Except String (List (List (List ℝ))) :=
  if layer.cfg.router_str = hashStr ∧ ids = none then
    Except.error missingIdsMsg
  else
    let E := layer.cfg.num_experts
    let tokens := x.flatten
    let T := tokens.length
    let idsFlat := (ids.getD []).flatten
    let logit : ℕ → ℕ → ℝ := fun i e =>
      (matVec layer.router_weight (tokens.getD i [])).getD e 0
    let W : ℕ → ℕ → ℝ :=
      if layer.cfg.router_str = hashStr then
        fun i e => if idsFlat.getD i 0 % E = e then 1 else 0
      else if layer.cfg.k ≠ 0 then
        fun i => tokenChoiceWeights E layer.cfg.k (logit i)
      else
        expertChoiceWeights E (capacityOf layer.cfg.c T E) T logit
    Except.ok (mapWithIndex (fun r row =>
      mapWithIndex (fun j v => combineTok E layer.experts (W (r * row.length + j)) v)
        0 row) 0 x)

/-- Shape predicate for a [batch, seq, hidden] nested-list tensor. -/
def hasShape3 (x : List (List (List ℝ))) (b s h : ℕ) : Prop :=
  x.length = b ∧ ∀ row ∈ x, row.length = s ∧ ∀ v ∈ row, v.length = h

/-- Dimension discipline for one expert of the bank: up-projection
[up_dim = u] with bias of length `u`, down-projection back to `h` with bias
of length `h`. -/
def wellShapedExpert (h u : ℕ) (w : ExpertWeights) : Prop :=
  w.up.length = u ∧ w.up_bias.length = u ∧ w.down.length = h ∧ w.down_bias.length = h

lemma length_mapWithIndex {α β : Type} (f : ℕ → α → β) :
    ∀ (i : ℕ) (l : List α), (mapWithIndex f i l).length = l.length
  | _, [] => rfl
  | i, _ :: as => by simp [mapWithIndex, length_mapWithIndex f (i + 1) as]

lemma mem_mapWithIndex {α β : Type} (f : ℕ → α → β) :
    ∀ (i : ℕ) (l : List α) (b : β), b ∈ mapWithIndex f i l →
      ∃ j a, a ∈ l ∧ b = f j a := by
  intro i l
  induction l generalizing i with
  | nil => intro b hb; simp [mapWithIndex] at hb
  | cons a as ih =>
    intro b hb
    rcases (List.mem_cons).mp hb with hb | hb
    · exact ⟨i, a, List.mem_cons_self a as, hb⟩
    · obtain ⟨j, a2, ha2, rfl⟩ := ih (i + 1) b hb
      exact ⟨j, a2, List.mem_cons_of_mem a ha2, rfl⟩

lemma getD_mem_of_lt {α : Type} (l : List α) (d : α) :
    ∀ i : ℕ, i < l.length → l.getD i d ∈ l := by
  induction l with
  | nil => intro i hi; simp at hi
  | cons a as ih =>
    intro i hi
    cases i with
    | zero => simp
    | succ n =>
      simp only [List.getD_cons_succ]
      exact List.mem_cons_of_mem a (ih n (by simpa using Nat.lt_of_succ_lt_succ hi))

lemma length_addVec (a b : List ℝ) : (addVec a b).length = min a.length b.length :=
  List.length_zipWith _ _ _

lemma length_applyExpert {h u : ℕ} {w : ExpertWeights}
    (hw : wellShapedExpert h u w) (v : List ℝ) : (applyExpert w v).length = h := by
  obtain ⟨_, _, hdown, hbias⟩ := hw
  simp [applyExpert, length_addVec, matVec, hdown, hbias]

lemma length_combineTok {E h u : ℕ} {experts : List ExpertWeights}
    (hE : experts.length = E)
    (hexp : ∀ w ∈ experts, wellShapedExpert h u w)
    (w : ℕ → ℝ) (v : List ℝ) (hv : v.length = h) :
    (combineTok E experts w v).length = h := by
  unfold combineTok
  suffices H : ∀ l : List ℕ, (∀ e ∈ l, e < E) → ∀ acc : List ℝ, acc.length = h →
      (l.foldl (fun acc e =>
        addVec acc (scaleVec (w e) (applyExpert (experts.getD e ⟨[], [], [], []⟩) v)))
        acc).length = h by
    exact H (List.range E) (fun e he => List.mem_range.mp he) _ (by simp [hv])
  intro l
  induction l with
  | nil => intro _ acc hacc; simpa using hacc
  | cons e es ih =>
    intro hmem acc hacc
    refine ih (fun e2 he2 => hmem e2 (List.mem_cons_of_mem e he2)) _ ?_
    have he : e < experts.length := hE ▸ hmem e (List.mem_cons_self e es)
    have hws : wellShapedExpert h u (experts.getD e ⟨[], [], [], []⟩) :=
      hexp _ (getD_mem_of_lt experts ⟨[], [], [], []⟩ e he)
    have h2 : (scaleVec (w e) (applyExpert (experts.getD e ⟨[], [], [], []⟩) v)).length = h := by
      rw [scaleVec, List.length_map]
      exact length_applyExpert hws v
    rw [length_addVec, hacc, h2, min_self]

/-- C4: for every configuration accepted by the constructor and every
[batch, seq, hidden] input (with a well-shaped expert bank, and input ids
present whenever the hash router demands them), the forward pass succeeds
and its output has exactly the input's shape. -/
theorem group_moe_layer_preserves_shape
    (cfg : MoEConfig) (experts : List ExpertWeights)
    (router_weight : List (List ℝ)) (layer : GroupMoELayer)
    (x : List (List (List ℝ))) (ids : Option (List (List ℕ))) (b s h u : ℕ)
    (hmk : mkGroupMoELayer cfg experts router_weight = Except.ok layer)
    (hx : hasShape3 x b s h)
    (hexp : ∀ w ∈ experts, wellShapedExpert h u w)
    (hEn : experts.length = cfg.num_experts)
    (hids : cfg.router_str = hashStr → ids ≠ none) :
    ∃ y, forward layer x ids = Except.ok y ∧ hasShape3 y b s h := by
  have hlayer : layer = ⟨cfg, experts, router_weight⟩ := by
    unfold mkGroupMoELayer at hmk
    split_ifs at hmk
    all_goals simp_all
  subst hlayer
  unfold forward
  rw [if_neg ?hcond]
  case hcond => rintro ⟨hh, hn⟩; exact hids hh hn
  obtain ⟨hxb, hrow⟩ := hx
  refine ⟨_, rfl, ?_, ?_⟩
  · simp [length_mapWithIndex, hxb]
  · intro row2 hmem
    obtain ⟨r, row, hrowmem, rfl⟩ := mem_mapWithIndex _ _ _ _ hmem
    obtain ⟨hrs, hv⟩ := hrow row hrowmem
    refine ⟨by simp [length_mapWithIndex, hrs], ?_⟩
    intro v2 hv2
    obtain ⟨j, v, hvmem, rfl⟩ := mem_mapWithIndex _ _ _ _ hv2
    exact length_combineTok hEn hexp _ v (hv v hvmem)

def exExpertW : ExpertWeights := ⟨[[0]], [0], [[0]], [0]⟩

def exCfgC4 : MoEConfig := ⟨1, hashStr, 0, 1, 1⟩

def exLayerC4 : GroupMoELayer := ⟨exCfgC4, [exExpertW], [[0]]⟩

/-- Witness for C4: a concrete hash-routed layer applied to a (1, 1, 1)
input returns a (1, 1, 1) output. -/
theorem group_moe_layer_preserves_shape_witness :
    ∃ y, forward exLayerC4 [[[(0 : ℝ)]]] (some [[0]]) = Except.ok y ∧
      hasShape3 y 1 1 1 :=
  group_moe_layer_preserves_shape exCfgC4 [exExpertW] [[0]] exLayerC4
    [[[(0 : ℝ)]]] (some [[0]]) 1 1 1 1 rfl
    (by simp [hasShape3])
    (by intro w hw
        simp only [List.mem_singleton] at hw
        subst hw
        simp [wellShapedExpert, exExpertW])
    rfl
    (fun _ => by simp)

/-- C8: a layer whose router is the hash router fails with the
assertion-style missing-ids error when forward is called without input ids,
for every input tensor — the check runs first, before any routing
computation. -/
theorem hash_router_requires_input_ids
    (layer : GroupMoELayer) (x : List (List (List ℝ)))
    (h : layer.cfg.router_str = hashStr) :
    forward layer x none = Except.error missingIdsMsg := by
  unfold forward
  rw [if_pos ⟨h, rfl⟩]

def exLayerC8 : GroupMoELayer := ⟨⟨8, hashStr, 0, 1, 2⟩, [], []⟩

/-- Witness for C8 at a concrete hash-routed layer. -/
theorem hash_router_requires_input_ids_witness :
    forward exLayerC8 [] none = Except.error missingIdsMsg :=
  hash_router_requires_input_ids exLayerC8 [] rfl

def exceptIsError {α : Type} : Except String α → Bool
  | Except.error _ => true
  | Except.ok _ => false

/-- C9: constructing a layer whose configuration has both `k = 0` and
`c = 0` fails with a configuration error at construction time. -/
theorem k_zero_c_zero_construction_fails
    (cfg : MoEConfig) (experts : List ExpertWeights)
    (router_weight : List (List ℝ)) (hk : cfg.k = 0) (hc : cfg.c = 0) :
    exceptIsError (mkGroupMoELayer cfg experts router_weight) = true := by
  unfold mkGroupMoELayer
  split_ifs with h1 h2 h3 h4
  · rfl
  · rfl
  · rfl
  · rfl
  · exact absurd (Or.inl ⟨hk, hc⟩) h2

def exCfgC9 : MoEConfig := ⟨8, hashStr, 0, 0, 2⟩

/-- Witness for C9 at the test's concrete configuration
(`num_experts = 8`, hash router, `k = 0`, `c = 0`, `group_size = 2`). -/
theorem k_zero_c_zero_construction_fails_witness :
    exceptIsError (mkGroupMoELayer exCfgC9 [] []) = true :=
  k_zero_c_zero_construction_fails exCfgC9 [] [] rfl rfl

/-! ### The full-cache dictionary invariant (claim C10)

`MoEFullCache` (src/mixture_of_experts/cache.py lines 23–29) subclasses
`Dict[str, MoELayerCache]`; its `__setitem__` asserts
`isinstance(cache, MoELayerCache)` before delegating to the dict.  Python
values are modelled by a sum type (`layerCache` for `MoELayerCache`
instances, `otherValue` for anything else), the dict by an association list
with replace-or-append semantics, and a raised `AssertionError` by `none`. -/

/-- `MoELayerCache` (src/mixture_of_experts/cache.py lines 10–19): softmaxed
top-k weights `G`, expert assignments, raw routing weights. -/
structure MoELayerCache where
  G : List (List ℝ)
  token_assignments : List (List ℤ)
  routing_weights : List (List ℝ)

/-- A runtime value that may be stored into the cache dict: either an actual
`MoELayerCache` or some other Python object (tagged by a description). -/
inductive CacheValue where
  | layerCache (c : MoELayerCache)
  | otherValue (tag : String)

def isLayerCache : CacheValue → Bool
  | CacheValue.layerCache _ => true
  | CacheValue.otherValue _ => false

/-- Python-dict assignment: replace the value of an existing key, else
append the new binding at the end (insertion order preserved). -/
def dictSet (store : List (String × CacheValue)) (key : String)
    (v : CacheValue) : List (String × CacheValue) :=
  if store.any (fun kv => kv.1 = key) then
    store.map (fun kv => if kv.1 = key then (key, v) else kv)
  else
    store ++ [(key, v)]

/-- `MoEFullCache.__init__`: built from a `Dict[str, MoELayerCache]`, so
every initial entry is a `MoELayerCache`. -/
def moeFullCacheInit (d : List (String × MoELayerCache)) :
    List (String × CacheValue) :=
  d.map (fun kc => (kc.1, CacheValue.layerCache kc.2))

/-- `MoEFullCache.__setitem__`: `assert isinstance(cache, MoELayerCache)`
(a non-`MoELayerCache` value raises, modelled by `none`), then the dict
assignment. -/
def moeFullCacheSetItem (store : List (String × CacheValue)) (key : String)
    (v : CacheValue) : Option (List (String × CacheValue)) :=
  match v with
  | CacheValue.layerCache _ => some (dictSet store key v)
  | CacheValue.otherValue _ => none

/-- Run a sequence of `__setitem__` calls; a raised assertion aborts the
whole run. -/
def runSetItems (store : List (String × CacheValue)) :
    List (String × CacheValue) → Option (List (String × CacheValue))
  | [] => some store
  | (key, v) :: rest =>
    match moeFullCacheSetItem store key v with
    | none => none
    | some st => runSetItems st rest

/-- All values currently stored in the dict are `MoELayerCache`s. -/
def allLayerCaches (store : List (String × CacheValue)) : Bool :=
  store.all (fun kv => isLayerCache kv.2)

lemma allLayerCaches_init (d : List (String × MoELayerCache)) :
    allLayerCaches (moeFullCacheInit d) = true := by
  simp only [allLayerCaches, moeFullCacheInit, List.all_eq_true]
  intro kv hkv
  obtain ⟨kc, hkc, rfl⟩ := List.mem_map.mp hkv
  rfl

lemma allLayerCaches_dictSet (store : List (String × CacheValue))
    (key : String) (v : CacheValue) (hst : allLayerCaches store = true)
    (hv : isLayerCache v = true) : allLayerCaches (dictSet store key v) = true := by
  simp only [allLayerCaches, List.all_eq_true] at hst ⊢
  unfold dictSet
  split_ifs
  · intro kv hkv
    obtain ⟨kv0, hkv0, rfl⟩ := List.mem_map.mp hkv
    by_cases hk : kv0.1 = key
    · simpa [hk] using hv
    · simpa [hk] using hst kv0 hkv0
  · intro kv hkv
    rcases List.mem_append.mp hkv with hkv | hkv
    · exact hst kv hkv
    · simp only [List.mem_singleton] at hkv
      subst hkv
      exact hv

lemma runSetItems_preserves (ops : List (String × CacheValue)) :
    ∀ store st, allLayerCaches store = true → runSetItems store ops = some st →
      allLayerCaches st = true := by
  induction ops with
  | nil =>
    intro store st hst hrun
    simp only [runSetItems, Option.some.injEq] at hrun
    subst hrun
    exact hst
  | cons op rest ih =>
    intro store st hst hrun
    obtain ⟨key, v⟩ := op
    unfold runSetItems at hrun
    cases v with
    | layerCache c =>
      simp only [moeFullCacheSetItem] at hrun
      exact ih _ _ (allLayerCaches_dictSet store key (CacheValue.layerCache c) hst rfl) hrun
    | otherValue tag =>
      simp [moeFullCacheSetItem] at hrun

/-- C10: `__setitem__` only ever stores `MoELayerCache` values (everything
else raises), so after constructing a `MoEFullCache` from a
`Dict[str, MoELayerCache]` and running any sequence of insertions that did
not raise, every entry of the mapping is a `MoELayerCache`. -/
theorem moe_full_cache_values_are_layer_caches
    (d : List (String × MoELayerCache)) (ops : List (String × CacheValue))
    (st : List (String × CacheValue))
    (hrun : runSetItems (moeFullCacheInit d) ops = some st) :
    allLayerCaches st = true :=
  runSetItems_preserves ops (moeFullCacheInit d) st (allLayerCaches_init d) hrun

def exKeyA : String := "layer1"

def exKeyB : String := "layer2"

def exLayerCacheC10 : MoELayerCache := ⟨[], [], []⟩

/-- Witness for C10: constructing from one entry and inserting a second
(also a `MoELayerCache`) leaves a mapping whose values are all
`MoELayerCache`s. -/
theorem moe_full_cache_values_are_layer_caches_witness :
    allLayerCaches
      [(exKeyA, CacheValue.layerCache exLayerCacheC10),
       (exKeyB, CacheValue.layerCache exLayerCacheC10)] = true :=
  moe_full_cache_values_are_layer_caches
    [(exKeyA, exLayerCacheC10)]
    [(exKeyB, CacheValue.layerCache exLayerCacheC10)]
    [(exKeyA, CacheValue.layerCache exLayerCacheC10),
     (exKeyB, CacheValue.layerCache exLayerCacheC10)]
    (by rfl)

end MLRep
